import Mathlib

/-!
Verification development for the multi-objective core of the optuna
repository: the dominance comparator, the Pareto-front extractor
(`optuna/study/_multi_objective.py`) and the NSGA-III sampler construction
and relative-sampling logic (`optuna/samplers/_nsgaiii/_sampler.py`).

Objective values are Python floats; here they are modelled exactly as
rationals extended with the two infinities (`Val`), which supports every
comparison the code performs (`<=`, `<`, `==`, negation, `float("inf")`).
NaN payloads are not modelled.
-/

/-- A Python float value as used by the objective/constraint logic:
a rational number, or one of the two infinities. -/
inductive Val where
  | negInf : Val
  | fin : ℚ → Val
  | posInf : Val
deriving DecidableEq

/-- The float comparison `a <= b`. -/
def Val.le : Val → Val → Bool
  | .negInf, _ => true
  | .fin _, .negInf => false
  | .fin a, .fin b => decide (a ≤ b)
  | .fin _, .posInf => true
  | .posInf, .posInf => true
  | .posInf, _ => false

/-- The float comparison `a < b`. -/
def Val.lt (a b : Val) : Bool := !(Val.le b a)

/-- Float negation `-a`. -/
def Val.neg : Val → Val
  | .negInf => .posInf
  | .fin a => .fin (-a)
  | .posInf => .negInf

/-- The two objective directions of `optuna.study._study_direction.StudyDirection`
(the values relevant to this core). -/
inductive StudyDirection where
  | minimize : StudyDirection
  | maximize : StudyDirection
deriving DecidableEq

/-- The trial lifecycle states of `optuna.trial.TrialState`. -/
inductive TrialState where
  | running : TrialState
  | waiting : TrialState
  | complete : TrialState
  | pruned : TrialState
  | fail : TrialState
deriving DecidableEq

/-- The slice of `optuna.trial.FrozenTrial` that the multi-objective core
reads: the sequence number, the lifecycle state, the optional list of
objective values, and the optional constraint vector stored under the
`"constraints"` key of `system_attrs` (field `constraints` models
`trial.system_attrs.get("constraints")`: `none` when the key is absent). -/
structure FrozenTrial where
  number : ℕ
  state : TrialState
  values : Option (List Val)
  constraints : Option (List Val)
deriving DecidableEq

/-- The loop-body condition of `_get_feasible_trials`:
`constraints is None or all([x <= 0.0 for x in constraints])`. -/
def feasibleB (trial : FrozenTrial) : Bool :=
  match trial.constraints with
  | none => true
  | some constraints => constraints.all fun x => x.le (Val.fin 0)

/-- `_get_feasible_trials`: keep the trials whose constraint vector is absent
or has every component `<= 0.0`. -/
def _get_feasible_trials (trials : List FrozenTrial) : List FrozenTrial :=
  trials.filter feasibleB

/-- `_normalize_value`: a missing value becomes `float("inf")`, then the value
is negated when the direction is MAXIMIZE. -/
def _normalize_value (value : Option Val) (direction : StudyDirection) : Val :=
  let v := value.getD Val.posInf
  match direction with
  | StudyDirection.maximize => v.neg
  | StudyDirection.minimize => v

/-- The list comprehension
`[_normalize_value(v, d) for v, d in zip(values, directions)]`
used twice inside `_dominates`. -/
def _normalized_values (values : List Val) (directions : List StudyDirection) : List Val :=
  (values.zip directions).map fun vd => _normalize_value (some vd.1) vd.2

/-- `_dominates(trial0, trial1, directions)`.  The Python function raises on a
missing value list (assert) and on mismatched lengths (ValueError); these
paths are modelled by `Except.error`. -/
def _dominates (trial0 trial1 : FrozenTrial) (directions : List StudyDirection) :
    Except String Bool :=
  match trial0.values, trial1.values with
  | some values0, some values1 =>
    if values0.length ≠ values1.length then
      Except.error "Trials with different numbers of objectives cannot be compared."
    else if values0.length ≠ directions.length then
      Except.error "The number of the values and the number of the objectives are mismatched."
    else if trial0.state ≠ TrialState.complete then
      Except.ok false
    else if trial1.state ≠ TrialState.complete then
      Except.ok true
    else
      let normalized_values0 := _normalized_values values0 directions
      let normalized_values1 := _normalized_values values1 directions
      if normalized_values0 = normalized_values1 then
        Except.ok false
      else
        Except.ok ((normalized_values0.zip normalized_values1).all fun p => p.1.le p.2)
  | _, _ => Except.error "assertion failed: values is None"

/-- Total view of `_dominates` used by the front extractors.  The extractors
only call `_dominates` on COMPLETE trials; on inputs where the Python call
would raise (which the extractors never produce for well-formed trials) this
model returns `false`. -/
def dominatesB (trial0 trial1 : FrozenTrial) (directions : List StudyDirection) : Bool :=
  match _dominates trial0 trial1 directions with
  | Except.ok b => b
  | Except.error _ => false

/-- The sort key of `_get_pareto_front_trials_2d`:
`(_normalize_value(trial.values[0], directions[0]),
  _normalize_value(trial.values[1], directions[1]))`.
Out-of-range access (impossible for well-formed two-objective COMPLETE
trials; a raise in Python) is modelled by defaults. -/
def sortKey2 (directions : List StudyDirection) (trial : FrozenTrial) : Val × Val :=
  (_normalize_value (some ((trial.values.getD []).getD 0 (Val.fin 0)))
      (directions.getD 0 StudyDirection.minimize),
   _normalize_value (some ((trial.values.getD []).getD 1 (Val.fin 0)))
      (directions.getD 1 StudyDirection.minimize))

/-- Python tuple comparison `a <= b` on pairs (lexicographic). -/
def tupleLe (a b : Val × Val) : Bool :=
  a.1.lt b.1 || (decide (a.1 = b.1) && a.2.le b.2)

/-- The linear sweep of `_get_pareto_front_trials_2d`: walk the sorted list
keeping a running last nondominated trial; a trial is skipped iff the last
nondominated trial dominates it, and otherwise appended and made the new
last nondominated trial. -/
def paretoSweep (directions : List StudyDirection) :
    FrozenTrial → List FrozenTrial → List FrozenTrial
  | _, [] => []
  | last, trial :: rest =>
    if dominatesB last trial directions then
      paretoSweep directions last rest
    else
      trial :: paretoSweep directions trial rest

/-- `_get_pareto_front_trials_2d`: filter COMPLETE (and feasible when
`consider_constraint`), sort by the normalized two-objective key, sweep,
and re-sort the front by trial number. -/
def _get_pareto_front_trials_2d (trials : List FrozenTrial)
    (directions : List StudyDirection) (consider_constraint : Bool) :
    List FrozenTrial :=
  let trials1 := trials.filter fun t => decide (t.state = TrialState.complete)
  let trials2 := if consider_constraint then _get_feasible_trials trials1 else trials1
  match trials2.mergeSort
      (fun a b => tupleLe (sortKey2 directions a) (sortKey2 directions b)) with
  | [] => []
  | t0 :: rest =>
    (t0 :: paretoSweep directions t0 rest).mergeSort
      (fun a b => decide (a.number ≤ b.number))

/-- `_get_pareto_front_trials_nd`: filter COMPLETE (and feasible when
`consider_constraint`), then keep each trial not dominated by any other. -/
def _get_pareto_front_trials_nd (trials : List FrozenTrial)
    (directions : List StudyDirection) (consider_constraint : Bool) :
    List FrozenTrial :=
  let trials1 := trials.filter fun t => decide (t.state = TrialState.complete)
  let trials2 := if consider_constraint then _get_feasible_trials trials1 else trials1
  trials2.filter fun trial => !(trials2.any fun other => dominatesB other trial directions)

/-- `_get_pareto_front_trials_by_trials`: dispatch on the number of
objectives. -/
def _get_pareto_front_trials_by_trials (trials : List FrozenTrial)
    (directions : List StudyDirection) (consider_constraint : Bool) :
    List FrozenTrial :=
  if directions.length = 2 then
    _get_pareto_front_trials_2d trials directions consider_constraint
  else
    _get_pareto_front_trials_nd trials directions consider_constraint

/-- The slice of `BaseCrossover` that the constructor validation reads:
the required number of parent individuals. -/
structure BaseCrossover where
  n_parents : ℕ
deriving DecidableEq

/-- The `crossover` argument of `NSGAIIISampler.__init__`: `None`, a valid
`BaseCrossover` instance, or an object that is not a `BaseCrossover`. -/
inductive CrossoverArg where
  | noCrossover : CrossoverArg
  | valid : BaseCrossover → CrossoverArg
  | invalid : CrossoverArg
deriving DecidableEq

/-- Modelled from the spec: `UniformCrossover` (defined outside this slice of
the repository) is the default crossover, a valid `BaseCrossover` whose
required parent count is 2. -/
def UniformCrossover : BaseCrossover := ⟨2⟩

/-- The configuration recorded by a successfully constructed sampler. -/
structure NSGAIIISamplerConfig where
  population_size : ℤ
  crossover : BaseCrossover
deriving DecidableEq

/-- The validation logic of `NSGAIIISampler.__init__`: reject
`population_size < 2`; substitute `UniformCrossover` for a missing
crossover; reject a non-`BaseCrossover` crossover; reject
`population_size < crossover.n_parents`. -/
def NSGAIIISampler_init (population_size : ℤ) (crossover : CrossoverArg) :
    Except String NSGAIIISamplerConfig :=
  if population_size < 2 then
    Except.error "population_size must be greater than or equal to 2."
  else
    match (match crossover with
           | CrossoverArg.noCrossover => CrossoverArg.valid UniformCrossover
           | c => c) with
    | CrossoverArg.invalid => Except.error "is not a valid crossover."
    | CrossoverArg.noCrossover => Except.error "is not a valid crossover."
    | CrossoverArg.valid c =>
      if population_size < (c.n_parents : ℤ) then
        Except.error "the population size should be greater than or equal to n_parents."
      else
        Except.ok { population_size := population_size, crossover := c }

/-- `NSGAIIISampler.sample_relative`: resolve the generation of the trial,
fetch its parent population; return the empty mapping when it is empty,
otherwise the mapping produced by the child-generation strategy.  The
generation bookkeeping (`get_trial_generation`, `get_parent_population`,
from `BaseGASampler`) and the strategy are collaborators outside this slice
of the repository and are passed as functions. -/
def NSGAIIISampler_sample_relative {Study SearchSpace Param : Type}
    (get_trial_generation : Study → FrozenTrial → ℕ)
    (get_parent_population : Study → ℕ → List FrozenTrial)
    (child_generation_strategy :
      Study → SearchSpace → List FrozenTrial → List (String × Param))
    (study : Study) (trial : FrozenTrial) (search_space : SearchSpace) :
    List (String × Param) :=
  let generation := get_trial_generation study trial
  let parent_population := get_parent_population study generation
  if parent_population.length = 0 then
    []
  else
    child_generation_strategy study search_space parent_population

/-! ### Order facts about `Val` -/

theorem Val.le_refl (a : Val) : a.le a = true := by
  cases a <;> simp [Val.le]

theorem Val.le_trans {a b c : Val} (h1 : a.le b = true) (h2 : b.le c = true) :
    a.le c = true := by
  cases a <;> cases b <;> cases c <;> simp_all [Val.le]
  exact ge_trans h2 h1

theorem Val.le_total (a b : Val) : a.le b = true ∨ b.le a = true := by
  cases a <;> cases b <;> simp [Val.le]
  exact LinearOrder.le_total _ _

theorem Val.le_antisymm {a b : Val} (h1 : a.le b = true) (h2 : b.le a = true) :
    a = b := by
  cases a <;> cases b <;> simp_all [Val.le]
  exact ge_antisymm h2 h1

/-- Element-wise `<=` in both directions forces equality of value lists. -/
theorem val_list_le_antisymm :
    ∀ (l1 l2 : List Val), l1.length = l2.length →
      ((l1.zip l2).all fun p => p.1.le p.2) = true →
      ((l2.zip l1).all fun p => p.1.le p.2) = true → l1 = l2
  | [], [], _, _, _ => rfl
  | [], _ :: _, h, _, _ => by simp at h
  | _ :: _, [], h, _, _ => by simp at h
  | a :: l1, b :: l2, h, h1, h2 => by
    simp only [List.zip_cons_cons, List.all_cons, Bool.and_eq_true] at h1 h2
    have hl := val_list_le_antisymm l1 l2 (by simpa using h) h1.2 h2.2
    have ha := Val.le_antisymm h1.1 h2.1
    rw [ha, hl]

/-! ### Claims about the dominance comparator -/

/-- C2: For every pair of COMPLETE trials whose objective vectors have the
same length as the direction vector and whose normalized objective vectors
are element-wise equal, `_dominates` is false in both directions. -/
theorem dominates_equal_normalized_false (a b : FrozenTrial)
    (directions : List StudyDirection) (va vb : List Val)
    (hva : a.values = some va) (hvb : b.values = some vb)
    (hsa : a.state = TrialState.complete) (hsb : b.state = TrialState.complete)
    (hla : va.length = directions.length) (hlb : vb.length = directions.length)
    (heq : _normalized_values va directions = _normalized_values vb directions) :
    _dominates a b directions = Except.ok false ∧
    _dominates b a directions = Except.ok false := by
  unfold _dominates
  constructor <;> simp [hva, hvb, hla, hlb, hsa, hsb, heq]

theorem dominates_equal_normalized_false_witness :
    _dominates ⟨0, TrialState.complete, some [Val.fin 1, Val.fin 2], none⟩
        ⟨1, TrialState.complete, some [Val.fin 1, Val.fin 2], none⟩
        [StudyDirection.minimize, StudyDirection.maximize] = Except.ok false ∧
    _dominates ⟨1, TrialState.complete, some [Val.fin 1, Val.fin 2], none⟩
        ⟨0, TrialState.complete, some [Val.fin 1, Val.fin 2], none⟩
        [StudyDirection.minimize, StudyDirection.maximize] = Except.ok false :=
  dominates_equal_normalized_false _ _ _ _ _ rfl rfl rfl rfl (by decide) (by decide)
    (by decide)

/-- C3: For trials carrying value lists of the same length as the direction
vector, `_dominates` returns true when the first trial is COMPLETE and the
second is not, and false whenever the first trial is not COMPLETE (so two
non-complete trials never dominate each other). -/
theorem dominates_state_shortcut (a b : FrozenTrial)
    (directions : List StudyDirection) (va vb : List Val)
    (hva : a.values = some va) (hvb : b.values = some vb)
    (hla : va.length = directions.length) (hlb : vb.length = directions.length) :
    (a.state = TrialState.complete → b.state ≠ TrialState.complete →
      _dominates a b directions = Except.ok true) ∧
    (a.state ≠ TrialState.complete →
      _dominates a b directions = Except.ok false) := by
  constructor
  · intro h1 h2
    unfold _dominates
    simp [hva, hvb, hla, hlb, h1, h2]
  · intro h1
    unfold _dominates
    simp [hva, hvb, hla, hlb, h1]

theorem dominates_state_shortcut_witness :
    _dominates ⟨0, TrialState.complete, some [Val.fin 1], none⟩
        ⟨1, TrialState.running, some [Val.fin 0], none⟩
        [StudyDirection.minimize] = Except.ok true ∧
    _dominates ⟨1, TrialState.running, some [Val.fin 0], none⟩
        ⟨0, TrialState.complete, some [Val.fin 1], none⟩
        [StudyDirection.minimize] = Except.ok false := by
  constructor
  · exact (dominates_state_shortcut _ _ _ _ _ rfl rfl (by decide) (by decide)).1
      (by decide) (by decide)
  · exact (dominates_state_shortcut _ _ _ _ _ rfl rfl (by decide) (by decide)).2
      (by decide)

/-- C6 counterexample: a missing value under a MAXIMIZE direction normalizes
to negative infinity, not positive infinity as the claim states. -/
theorem normalize_missing_maximize_neg_inf :
    _normalize_value none StudyDirection.maximize = Val.negInf ∧
    Val.negInf ≠ Val.posInf := by
  constructor
  · rfl
  · decide

/-- C6 (amended): normalization returns `v` under MINIMIZE and `-v` under
MAXIMIZE; a missing value is first replaced by positive infinity and then
negated like any other value, so it normalizes to positive infinity under
MINIMIZE and to negative infinity under MAXIMIZE. -/
theorem normalize_value_spec :
    (∀ v : Val, _normalize_value (some v) StudyDirection.minimize = v) ∧
    (∀ v : Val, _normalize_value (some v) StudyDirection.maximize = v.neg) ∧
    _normalize_value none StudyDirection.minimize = Val.posInf ∧
    _normalize_value none StudyDirection.maximize = Val.negInf :=
  ⟨fun _ => rfl, fun _ => rfl, rfl, rfl⟩

/-- C8: sampler construction fails whenever the population size is below 2,
or the crossover argument is not a valid crossover, or the population size
is below the required parent count of the configured (or defaulted)
crossover. -/
theorem NSGAIIISampler_init_rejects (population_size : ℤ)
    (crossover : CrossoverArg)
    (h : population_size < 2 ∨ crossover = CrossoverArg.invalid ∨
      (∃ c, (crossover = CrossoverArg.valid c ∨
             (crossover = CrossoverArg.noCrossover ∧ c = UniformCrossover)) ∧
            population_size < (c.n_parents : ℤ))) :
    ∃ msg, NSGAIIISampler_init population_size crossover = Except.error msg := by
  unfold NSGAIIISampler_init
  by_cases hp : population_size < 2
  · exact ⟨_, by rw [if_pos hp]⟩
  · rw [if_neg hp]
    rcases h with h | h | ⟨c, hc, hn⟩
    · exact absurd h hp
    · subst h
      exact ⟨_, rfl⟩
    · rcases hc with hc | ⟨hc, hcu⟩
      · subst hc
        refine ⟨"the population size should be greater than or equal to n_parents.", ?_⟩
        show (if population_size < (c.n_parents : ℤ) then
            Except.error
              "the population size should be greater than or equal to n_parents."
          else
            Except.ok (NSGAIIISamplerConfig.mk population_size c)) = _
        rw [if_pos hn]
      · subst hc
        subst hcu
        refine ⟨"the population size should be greater than or equal to n_parents.", ?_⟩
        show (if population_size < (UniformCrossover.n_parents : ℤ) then
            Except.error
              "the population size should be greater than or equal to n_parents."
          else
            Except.ok (NSGAIIISamplerConfig.mk population_size UniformCrossover)) = _
        rw [if_pos hn]

theorem NSGAIIISampler_init_rejects_witness :
    ∃ msg, NSGAIIISampler_init 2 (CrossoverArg.valid ⟨3⟩) = Except.error msg :=
  NSGAIIISampler_init_rejects 2 (CrossoverArg.valid ⟨3⟩)
    (Or.inr (Or.inr ⟨⟨3⟩, Or.inl rfl, by decide⟩))

/-- C9: `sample_relative` returns the empty parameter mapping when the parent
population of the generation of the trial is empty, and otherwise returns
verbatim the mapping produced by the child-generation strategy on
(study, search space, parent population). -/
theorem sample_relative_spec {Study SearchSpace Param : Type}
    (get_trial_generation : Study → FrozenTrial → ℕ)
    (get_parent_population : Study → ℕ → List FrozenTrial)
    (child_generation_strategy :
      Study → SearchSpace → List FrozenTrial → List (String × Param))
    (study : Study) (trial : FrozenTrial) (search_space : SearchSpace) :
    (get_parent_population study (get_trial_generation study trial) = [] →
      NSGAIIISampler_sample_relative get_trial_generation get_parent_population
        child_generation_strategy study trial search_space = []) ∧
    (get_parent_population study (get_trial_generation study trial) ≠ [] →
      NSGAIIISampler_sample_relative get_trial_generation get_parent_population
        child_generation_strategy study trial search_space =
      child_generation_strategy study search_space
        (get_parent_population study (get_trial_generation study trial))) := by
  unfold NSGAIIISampler_sample_relative
  constructor
  · intro h
    simp [h]
  · intro h
    rw [if_neg (by simpa using h)]

theorem sample_relative_spec_witness :
    NSGAIIISampler_sample_relative (fun (_ : Unit) _ => 0) (fun _ _ => [])
      (fun _ (_ : Unit) _ => [("x", (0 : ℕ))]) () ⟨0, TrialState.running, none, none⟩
      () = [] ∧
    NSGAIIISampler_sample_relative (fun (_ : Unit) _ => 0)
      (fun _ _ => [⟨5, TrialState.complete, some [Val.fin 1], none⟩])
      (fun _ (_ : Unit) _ => [("x", (0 : ℕ))]) () ⟨0, TrialState.running, none, none⟩
      () = [("x", (0 : ℕ))] := by
  constructor
  · exact (sample_relative_spec _ _ _ _ _ _).1 rfl
  · exact (sample_relative_spec _ _ _ _ _ _).2 (by simp)

/-- C10: at the comparison interface, for trials carrying value lists whose
length matches the direction vector, `_dominates` never returns true in both
directions, whatever the lifecycle states are. -/
theorem dominates_asymmetric (a b : FrozenTrial)
    (directions : List StudyDirection) (va vb : List Val)
    (hva : a.values = some va) (hvb : b.values = some vb)
    (hla : va.length = directions.length) (hlb : vb.length = directions.length) :
    ¬(_dominates a b directions = Except.ok true ∧
      _dominates b a directions = Except.ok true) := by
  rintro ⟨h1, h2⟩
  unfold _dominates at h1 h2
  by_cases hsa : a.state = TrialState.complete
  · by_cases hsb : b.state = TrialState.complete
    · simp only [hva, hvb, hla, hlb, hsa, hsb] at h1 h2
      by_cases heq : _normalized_values va directions = _normalized_values vb directions
      · simp [hla, hlb, heq] at h1
      · have heq2 : _normalized_values vb directions ≠ _normalized_values va directions :=
          fun h => heq h.symm
        rw [if_neg heq] at h1
        rw [if_neg heq2] at h2
        apply heq
        refine val_list_le_antisymm _ _ ?_ ?_ ?_
        · simp [_normalized_values, hla, hlb]
        · simpa using h1
        · simpa using h2
    · simp [hva, hvb, hla, hlb, hsa, hsb] at h2
  · simp [hva, hvb, hla, hlb, hsa] at h1

theorem dominates_asymmetric_witness :
    ¬(_dominates ⟨0, TrialState.complete, some [Val.fin 1, Val.fin 2], none⟩
        ⟨1, TrialState.complete, some [Val.fin 2, Val.fin 1], none⟩
        [StudyDirection.minimize, StudyDirection.minimize] = Except.ok true ∧
      _dominates ⟨1, TrialState.complete, some [Val.fin 2, Val.fin 1], none⟩
        ⟨0, TrialState.complete, some [Val.fin 1, Val.fin 2], none⟩
        [StudyDirection.minimize, StudyDirection.minimize] = Except.ok true) :=
  dominates_asymmetric _ _ _ _ _ rfl rfl (by decide) (by decide)

/-! ### The candidate list shared by both Pareto-front paths -/

/-- The first two lines of both extractors: keep the COMPLETE trials and,
when `consider_constraint`, the feasible ones. -/
def paretoCandidates (trials : List FrozenTrial) (consider_constraint : Bool) :
    List FrozenTrial :=
  let trials1 := trials.filter fun t => decide (t.state = TrialState.complete)
  if consider_constraint then _get_feasible_trials trials1 else trials1

theorem nd_eq_candidates (trials : List FrozenTrial)
    (directions : List StudyDirection) (consider_constraint : Bool) :
    _get_pareto_front_trials_nd trials directions consider_constraint =
    (paretoCandidates trials consider_constraint).filter fun trial =>
      !((paretoCandidates trials consider_constraint).any fun other =>
        dominatesB other trial directions) := rfl

theorem twod_eq_candidates (trials : List FrozenTrial)
    (directions : List StudyDirection) (consider_constraint : Bool) :
    _get_pareto_front_trials_2d trials directions consider_constraint =
    (match (paretoCandidates trials consider_constraint).mergeSort
        (fun a b => tupleLe (sortKey2 directions a) (sortKey2 directions b)) with
    | [] => []
    | t0 :: rest =>
      (t0 :: paretoSweep directions t0 rest).mergeSort
        (fun a b => decide (a.number ≤ b.number))) := rfl

theorem mem_paretoCandidates {trials : List FrozenTrial}
    {consider_constraint : Bool} {t : FrozenTrial} :
    t ∈ paretoCandidates trials consider_constraint ↔
      t ∈ trials ∧ t.state = TrialState.complete ∧
        (consider_constraint = true → feasibleB t = true) := by
  unfold paretoCandidates _get_feasible_trials
  cases consider_constraint <;> (simp [List.mem_filter]; try tauto)

theorem paretoCandidates_sublist (trials : List FrozenTrial)
    (consider_constraint : Bool) :
    (paretoCandidates trials consider_constraint).Sublist trials := by
  unfold paretoCandidates _get_feasible_trials
  cases consider_constraint
  · simp only [Bool.false_eq_true, if_neg]
    exact List.filter_sublist trials
  · simp only [if_pos]
    exact ((List.filter_sublist _).trans (List.filter_sublist trials))

/-! ### Facts about the two-objective sort key order -/

theorem Val.lt_iff {a b : Val} : a.lt b = true ↔ (a.le b = true ∧ a ≠ b) := by
  constructor
  · intro h
    have hb : b.le a = false := by
      cases hba : b.le a
      · rfl
      · simp [Val.lt, hba] at h
    constructor
    · rcases Val.le_total a b with h1 | h1
      · exact h1
      · rw [h1] at hb
        cases hb
    · rintro rfl
      rw [Val.le_refl] at hb
      cases hb
  · rintro ⟨h1, h2⟩
    have : b.le a = false := by
      cases hba : b.le a
      · rfl
      · exact absurd (Val.le_antisymm h1 hba) h2
    simp [Val.lt, this]

/-- The dominance test between two COMPLETE two-objective trials, expressed
on their sort keys: keys differ and both components are `<=`. -/
def dom2 (p q : Val × Val) : Bool :=
  !decide (p = q) && (p.1.le q.1 && p.2.le q.2)

theorem dom2_self (p : Val × Val) : dom2 p p = false := by
  simp [dom2]

theorem dom2_congr {p p' q q' : Val × Val} (h1 : p = p') (h2 : q = q') :
    dom2 p q = dom2 p' q' := by rw [h1, h2]

theorem tupleLe_iff {a b : Val × Val} :
    tupleLe a b = true ↔
      (a.1.le b.1 = true ∧ a.1 ≠ b.1) ∨ (a.1 = b.1 ∧ a.2.le b.2 = true) := by
  simp [tupleLe, Val.lt_iff, Bool.or_eq_true, Bool.and_eq_true]

theorem tupleLe_total (a b : Val × Val) : tupleLe a b = true ∨ tupleLe b a = true := by
  by_cases h1 : a.1 = b.1
  · rcases Val.le_total a.2 b.2 with h2 | h2
    · exact Or.inl (tupleLe_iff.mpr (Or.inr ⟨h1, h2⟩))
    · exact Or.inr (tupleLe_iff.mpr (Or.inr ⟨h1.symm, h2⟩))
  · rcases Val.le_total a.1 b.1 with h2 | h2
    · exact Or.inl (tupleLe_iff.mpr (Or.inl ⟨h2, h1⟩))
    · exact Or.inr (tupleLe_iff.mpr (Or.inl ⟨h2, fun h => h1 h.symm⟩))

theorem tupleLe_trans {a b c : Val × Val} (h1 : tupleLe a b = true)
    (h2 : tupleLe b c = true) : tupleLe a c = true := by
  rw [tupleLe_iff] at h1 h2 ⊢
  rcases h1 with ⟨hab, hne1⟩ | ⟨he1, hs1⟩
  · rcases h2 with ⟨hbc, hne2⟩ | ⟨he2, hs2⟩
    · refine Or.inl ⟨Val.le_trans hab hbc, fun h => ?_⟩
      exact hne2 (Val.le_antisymm hbc (h ▸ hab))
    · exact Or.inl ⟨he2 ▸ hab, he2 ▸ hne1⟩
  · rcases h2 with ⟨hbc, hne2⟩ | ⟨he2, hs2⟩
    · exact Or.inl ⟨he1 ▸ hbc, he1 ▸ hne2⟩
    · exact Or.inr ⟨he1.trans he2, Val.le_trans hs1 hs2⟩

/-- A key that is lexicographically before another and pointwise at least it
must be equal to it. -/
theorem tupleLe_pointwise_antisymm {a b : Val × Val} (h : tupleLe a b = true)
    (h1 : b.1.le a.1 = true) (h2 : b.2.le a.2 = true) : a = b := by
  rw [tupleLe_iff] at h
  rcases h with ⟨hab, hne⟩ | ⟨he, hs⟩
  · exact absurd (Val.le_antisymm hab h1) hne
  · exact Prod.ext he (Val.le_antisymm hs h2)

/-- If the earlier key does not dominate the later one, then either the keys
are equal or the second component strictly decreases. -/
theorem tupleLe_accept {p q : Val × Val} (hle : tupleLe p q = true)
    (hnd : dom2 p q = false) : q = p ∨ p.2.le q.2 = false := by
  by_cases hpq : p = q
  · exact Or.inl hpq.symm
  · by_cases hs : p.2.le q.2 = true
    · have h1 : p.1.le q.1 = false := by
        cases hx : p.1.le q.1
        · rfl
        · rw [dom2] at hnd
          simp [hpq, hx, hs] at hnd
      rw [tupleLe_iff] at hle
      rcases hle with ⟨hab, _⟩ | ⟨he, _⟩
      · rw [hab] at h1
        cases h1
      · rw [he, Val.le_refl] at h1
        cases h1
    · exact Or.inr (by simpa using hs)

/-! ### Well-formed trials and the key view of dominance -/

/-- Spec invariant: every COMPLETE trial carries a recorded objective-value
list whose length equals the number of objective directions. -/
def WfTrials (trials : List FrozenTrial) (directions : List StudyDirection) : Prop :=
  ∀ t ∈ trials, t.state = TrialState.complete →
    t.values = some (t.values.getD []) ∧
    (t.values.getD []).length = directions.length

theorem list_length_two {α : Type} {l : List α} (h : l.length = 2) :
    ∃ x0 x1, l = [x0, x1] := by
  cases l with
  | nil => simp at h
  | cons x0 t =>
    cases t with
    | nil => simp at h
    | cons x1 t2 =>
      cases t2 with
      | nil => exact ⟨x0, x1, rfl⟩
      | cons z t3 => simp at h

theorem dom2_ne {p q : Val × Val} (h : dom2 p q = true) : p ≠ q := by
  simp only [dom2, Bool.and_eq_true, Bool.not_eq_eq_eq_not, Bool.not_true,
    decide_eq_false_iff_not] at h
  exact h.1

theorem dom2_le1 {p q : Val × Val} (h : dom2 p q = true) : p.1.le q.1 = true := by
  simp only [dom2, Bool.and_eq_true] at h
  exact h.2.1

theorem dom2_le2 {p q : Val × Val} (h : dom2 p q = true) : p.2.le q.2 = true := by
  simp only [dom2, Bool.and_eq_true] at h
  exact h.2.2

theorem sortKey2_eq {d0 d1 : StudyDirection} {t : FrozenTrial} {x0 x1 : Val}
    (hv : t.values = some [x0, x1]) :
    sortKey2 [d0, d1] t =
      (_normalize_value (some x0) d0, _normalize_value (some x1) d1) := by
  simp [sortKey2, hv]

/-- Between two COMPLETE two-objective trials, `dominatesB` is exactly the
key-level dominance test `dom2` on the sort keys. -/
theorem dominatesB_eq_dom2 {d0 d1 : StudyDirection} {a b : FrozenTrial}
    {x0 x1 y0 y1 : Val}
    (hsa : a.state = TrialState.complete) (hsb : b.state = TrialState.complete)
    (hva : a.values = some [x0, x1]) (hvb : b.values = some [y0, y1]) :
    dominatesB a b [d0, d1] =
      dom2 (sortKey2 [d0, d1] a) (sortKey2 [d0, d1] b) := by
  rw [sortKey2_eq hva, sortKey2_eq hvb]
  unfold dominatesB _dominates
  simp only [hva, hvb, List.length_cons, List.length_nil, ne_eq, hsa, hsb,
    not_true_eq_false, if_false, if_neg, reduceIte]
  have hn : _normalized_values [x0, x1] [d0, d1] =
      [_normalize_value (some x0) d0, _normalize_value (some x1) d1] := rfl
  have hm : _normalized_values [y0, y1] [d0, d1] =
      [_normalize_value (some y0) d0, _normalize_value (some y1) d1] := rfl
  rw [hn, hm]
  by_cases heq : (_normalize_value (some x0) d0, _normalize_value (some x1) d1) =
      (_normalize_value (some y0) d0, _normalize_value (some y1) d1)
  · rw [if_pos (by simpa [Prod.ext_iff] using heq)]
    simp [dom2, heq]
  · rw [if_neg (by simpa [Prod.ext_iff] using heq)]
    simp [dom2, heq]

/-! ### Sweep lemmas -/

theorem paretoSweep_sublist (directions : List StudyDirection)
    (ts : List FrozenTrial) : ∀ last, (paretoSweep directions last ts).Sublist ts := by
  induction ts with
  | nil =>
    intro last
    simp [paretoSweep]
  | cons h rest ih =>
    intro last
    by_cases hd : dominatesB last h directions = true
    · simp only [paretoSweep, if_pos hd]
      exact (ih last).cons h
    · simp only [paretoSweep, if_neg hd]
      exact (ih h).cons₂ h

/-- A trial dropped by the sweep is dominated by the running last
nondominated trial at that moment, hence by some element of the processed
list. -/
theorem paretoSweep_rejected (directions : List StudyDirection)
    (ts : List FrozenTrial) :
    ∀ last t, t ∈ ts → t ∉ paretoSweep directions last ts →
      ∃ u, (u = last ∨ u ∈ ts) ∧ dominatesB u t directions = true := by
  induction ts with
  | nil =>
    intro last t ht _
    cases ht
  | cons h rest ih =>
    intro last t ht hout
    by_cases hd : dominatesB last h directions = true
    · simp only [paretoSweep, if_pos hd] at hout
      rcases List.mem_cons.mp ht with rfl | ht2
      · exact ⟨last, Or.inl rfl, hd⟩
      · rcases ih last t ht2 hout with ⟨u, hu, hdu⟩
        exact ⟨u, hu.imp id (List.mem_cons_of_mem h), hdu⟩
    · simp only [paretoSweep, if_neg hd] at hout
      rcases List.mem_cons.mp ht with rfl | ht2
      · exact absurd (List.mem_cons_self t _) hout
      · have hout2 : t ∉ paretoSweep directions h rest := fun hc =>
          hout (List.mem_cons_of_mem h hc)
        rcases ih h t ht2 hout2 with ⟨u, hu, hdu⟩
        refine ⟨u, ?_, hdu⟩
        rcases hu with hu | hu
        · exact Or.inr (by rw [hu]; exact List.mem_cons_self h rest)
        · exact Or.inr (List.mem_cons_of_mem h hu)

/-- When no dominance holds among the inputs, the sweep keeps everything. -/
theorem paretoSweep_keeps_all (directions : List StudyDirection)
    (ts : List FrozenTrial) :
    ∀ last, (∀ a b, (a = last ∨ a ∈ ts) → b ∈ ts →
        dominatesB a b directions = false) →
      paretoSweep directions last ts = ts := by
  induction ts with
  | nil =>
    intro last _
    rfl
  | cons h rest ih =>
    intro last hall
    have hd : dominatesB last h directions = false :=
      hall last h (Or.inl rfl) (List.mem_cons_self h rest)
    have hd2 : ¬dominatesB last h directions = true := by
      rw [hd]
      exact Bool.false_ne_true
    show (if dominatesB last h directions = true then
        paretoSweep directions last rest
      else h :: paretoSweep directions h rest) = h :: rest
    rw [if_neg hd2]
    have hrec : paretoSweep directions h rest = rest := by
      refine ih h ?_
      intro a b ha hb
      refine hall a b ?_ (List.mem_cons_of_mem h hb)
      rcases ha with ha | ha
      · exact Or.inr (by rw [ha]; exact List.mem_cons_self h rest)
      · exact Or.inr (List.mem_cons_of_mem h ha)
    rw [hrec]

/-- The head of a lexicographically sorted list is nondominated in it. -/
theorem sorted_head_nondominated (key : FrozenTrial → Val × Val)
    (t0 : FrozenTrial) (rest : List FrozenTrial)
    (hpair : List.Pairwise (fun a b => tupleLe (key a) (key b) = true) (t0 :: rest)) :
    ∀ u ∈ t0 :: rest, dom2 (key u) (key t0) = false := by
  intro u hu
  rcases List.mem_cons.mp hu with hu0 | hur
  · rw [hu0]
    exact dom2_self _
  · cases hdu : dom2 (key u) (key t0)
    · rfl
    · exfalso
      have hne := dom2_ne hdu
      have hle1 := dom2_le1 hdu
      have hle2 := dom2_le2 hdu
      have h0u : tupleLe (key t0) (key u) = true :=
        (List.pairwise_cons.mp hpair).1 u hur
      exact hne (tupleLe_pointwise_antisymm h0u hle1 hle2).symm

/-- Soundness of the sweep: starting from a nondominated running trial whose
second key component is minimal among the processed trials, every trial the
sweep keeps is nondominated in the whole candidate set `S`. -/
theorem paretoSweep_sound (directions : List StudyDirection)
    (S : List FrozenTrial) (key : FrozenTrial → Val × Val)
    (hdom : ∀ a b, a ∈ S → b ∈ S →
      dominatesB a b directions = dom2 (key a) (key b)) :
    ∀ (ts : List FrozenTrial), ∀ (P : List FrozenTrial) (last : FrozenTrial),
      List.Pairwise (fun a b => tupleLe (key a) (key b) = true) (last :: ts) →
      (∀ u ∈ S, u ∈ P ∨ u = last ∨ u ∈ ts) →
      last ∈ S → (∀ x ∈ ts, x ∈ S) →
      (∀ u ∈ P, ((key last).2).le ((key u).2) = true) →
      (∀ u ∈ S, dom2 (key u) (key last) = false) →
      ∀ t, t ∈ last :: paretoSweep directions last ts →
        ∀ u ∈ S, dom2 (key u) (key t) = false := by
  intro ts
  induction ts with
  | nil =>
    intro P last _ _ _ _ _ hnd t htmem u huS
    rw [show paretoSweep directions last [] = [] from rfl] at htmem
    rcases List.mem_cons.mp htmem with rfl | h2
    · exact hnd u huS
    · cases h2
  | cons h rest ih =>
    intro P last hpair hcover hlastS htsS hmin hnd t htmem u huS
    have hS : h ∈ S := htsS h (List.mem_cons_self h rest)
    have hrestS : ∀ x ∈ rest, x ∈ S := fun x hx =>
      htsS x (List.mem_cons_of_mem h hx)
    have hlastH : tupleLe (key last) (key h) = true :=
      (List.pairwise_cons.mp hpair).1 h (List.mem_cons_self h rest)
    have hpairH : List.Pairwise (fun a b => tupleLe (key a) (key b) = true)
        (h :: rest) := (List.pairwise_cons.mp hpair).2
    by_cases hd : dominatesB last h directions = true
    · rw [show paretoSweep directions last (h :: rest) =
          paretoSweep directions last rest from by
        simp only [paretoSweep, if_pos hd]] at htmem
      have hd2 : dom2 (key last) (key h) = true := by
        rw [← hdom last h hlastS hS]
        exact hd
      refine ih (h :: P) last ?_ ?_ hlastS hrestS ?_ hnd t htmem u huS
      · refine List.Pairwise.sublist ?_ hpair
        exact List.Sublist.cons₂ last (List.sublist_cons_self h rest)
      · intro v hv
        rcases hcover v hv with hvP | hvL | hvT
        · exact Or.inl (List.mem_cons_of_mem h hvP)
        · exact Or.inr (Or.inl hvL)
        · rcases List.mem_cons.mp hvT with hvh | hvr
          · exact Or.inl (by rw [hvh]; exact List.mem_cons_self h P)
          · exact Or.inr (Or.inr hvr)
      · intro v hv
        rcases List.mem_cons.mp hv with hvh | hvP
        · rw [hvh]
          exact dom2_le2 hd2
        · exact hmin v hvP
    · have hd0 : dominatesB last h directions = false := by
        cases hx : dominatesB last h directions
        · rfl
        · exact absurd hx hd
      have hnd2 : dom2 (key last) (key h) = false := by
        rw [← hdom last h hlastS hS]
        exact hd0
      rw [show paretoSweep directions last (h :: rest) =
          h :: paretoSweep directions h rest from by
        simp only [paretoSweep, if_neg hd]] at htmem
      rcases List.mem_cons.mp htmem with rfl | htmem2
      · exact hnd u huS
      · have hcover2 : ∀ v ∈ S, v ∈ last :: P ∨ v = h ∨ v ∈ rest := by
          intro v hv
          rcases hcover v hv with hvP | hvL | hvT
          · exact Or.inl (List.mem_cons_of_mem last hvP)
          · exact Or.inl (by rw [hvL]; exact List.mem_cons_self last P)
          · rcases List.mem_cons.mp hvT with hvh | hvr
            · exact Or.inr (Or.inl hvh)
            · exact Or.inr (Or.inr hvr)
        rcases tupleLe_accept hlastH hnd2 with hkeq | hlt
        · refine ih (last :: P) h hpairH hcover2 hS hrestS ?_ ?_ t htmem2 u huS
          · intro v hv
            rw [hkeq]
            rcases List.mem_cons.mp hv with hvl | hvP
            · rw [hvl]
              exact Val.le_refl _
            · exact hmin v hvP
          · intro v hv
            rw [hkeq]
            exact hnd v hv
        · have hh : ((key h).2).le ((key last).2) = true := by
            rcases Val.le_total ((key last).2) ((key h).2) with hx | hx
            · rw [hx] at hlt
              cases hlt
            · exact hx
          refine ih (last :: P) h hpairH hcover2 hS hrestS ?_ ?_ t htmem2 u huS
          · intro v hv
            rcases List.mem_cons.mp hv with hvl | hvP
            · rw [hvl]
              exact hh
            · exact Val.le_trans hh (hmin v hvP)
          · intro v hvS
            cases hdu : dom2 (key v) (key h)
            · rfl
            · exfalso
              have hne := dom2_ne hdu
              have hle1 := dom2_le1 hdu
              have hle2 := dom2_le2 hdu
              rcases hcover2 v hvS with hvP | hvh | hvr
              · rcases List.mem_cons.mp hvP with hvl | hvP2
                · rw [hvl] at hle2
                  rw [hle2] at hlt
                  cases hlt
                · have hc := Val.le_trans (hmin v hvP2) hle2
                  rw [hc] at hlt
                  cases hlt
              · exact hne (by rw [hvh])
              · have hhv : tupleLe (key h) (key v) = true :=
                  (List.pairwise_cons.mp hpairH).1 v hvr
                exact hne (tupleLe_pointwise_antisymm hhv hle1 hle2).symm

/-! ### Membership characterizations of the two extractor outputs -/

theorem nd_mem (trials : List FrozenTrial) (directions : List StudyDirection)
    (consider_constraint : Bool) (t : FrozenTrial) :
    t ∈ _get_pareto_front_trials_nd trials directions consider_constraint ↔
      (t ∈ paretoCandidates trials consider_constraint ∧
       ∀ u ∈ paretoCandidates trials consider_constraint,
         dominatesB u t directions = false) := by
  rw [nd_eq_candidates]
  simp only [List.mem_filter, Bool.not_eq_true', List.any_eq_false,
    Bool.not_eq_true]

theorem twod_mem (trials : List FrozenTrial) (d0 d1 : StudyDirection)
    (consider_constraint : Bool) (hwf : WfTrials trials [d0, d1])
    (t : FrozenTrial) :
    t ∈ _get_pareto_front_trials_2d trials [d0, d1] consider_constraint ↔
      (t ∈ paretoCandidates trials consider_constraint ∧
       ∀ u ∈ paretoCandidates trials consider_constraint,
         dominatesB u t [d0, d1] = false) := by
  have hdom : ∀ a b, a ∈ paretoCandidates trials consider_constraint →
      b ∈ paretoCandidates trials consider_constraint →
      dominatesB a b [d0, d1] =
        dom2 (sortKey2 [d0, d1] a) (sortKey2 [d0, d1] b) := by
    intro a b ha hb
    obtain ⟨hat, has, _⟩ := mem_paretoCandidates.mp ha
    obtain ⟨hbt, hbs, _⟩ := mem_paretoCandidates.mp hb
    obtain ⟨hva, hla⟩ := hwf a hat has
    obtain ⟨hvb, hlb⟩ := hwf b hbt hbs
    obtain ⟨x0, x1, hx⟩ := list_length_two hla
    obtain ⟨y0, y1, hy⟩ := list_length_two hlb
    rw [hx] at hva
    rw [hy] at hvb
    exact dominatesB_eq_dom2 has hbs hva hvb
  have htrans : ∀ a b c : FrozenTrial,
      tupleLe (sortKey2 [d0, d1] a) (sortKey2 [d0, d1] b) →
      tupleLe (sortKey2 [d0, d1] b) (sortKey2 [d0, d1] c) →
      tupleLe (sortKey2 [d0, d1] a) (sortKey2 [d0, d1] c) :=
    fun _ _ _ h1 h2 => tupleLe_trans h1 h2
  have htotal : ∀ a b : FrozenTrial,
      (tupleLe (sortKey2 [d0, d1] a) (sortKey2 [d0, d1] b) ||
       tupleLe (sortKey2 [d0, d1] b) (sortKey2 [d0, d1] a)) = true := by
    intro a b
    rcases tupleLe_total (sortKey2 [d0, d1] a) (sortKey2 [d0, d1] b) with h | h <;>
      simp [h]
  rw [twod_eq_candidates]
  cases hS : (paretoCandidates trials consider_constraint).mergeSort
      (fun a b => tupleLe (sortKey2 [d0, d1] a) (sortKey2 [d0, d1] b)) with
  | nil =>
    have hT : paretoCandidates trials consider_constraint = [] := by
      have hp := List.mergeSort_perm (paretoCandidates trials consider_constraint)
        (fun a b => tupleLe (sortKey2 [d0, d1] a) (sortKey2 [d0, d1] b))
      rw [hS] at hp
      exact (hp.symm.eq_nil)
    simp [hT]
  | cons t0 rest =>
    have hperm : (t0 :: rest).Perm (paretoCandidates trials consider_constraint) := by
      have hp := List.mergeSort_perm (paretoCandidates trials consider_constraint)
        (fun a b => tupleLe (sortKey2 [d0, d1] a) (sortKey2 [d0, d1] b))
      rw [hS] at hp
      exact hp
    have hpair : List.Pairwise
        (fun a b => tupleLe (sortKey2 [d0, d1] a) (sortKey2 [d0, d1] b) = true)
        (t0 :: rest) := by
      have hsor := List.sorted_mergeSort htrans htotal
        (paretoCandidates trials consider_constraint)
      rw [hS] at hsor
      exact hsor
    constructor
    · intro htmem
      rw [List.mem_mergeSort] at htmem
      have htS : t ∈ t0 :: rest := by
        rcases List.mem_cons.mp htmem with h1 | h2
        · rw [h1]
          exact List.mem_cons_self t0 rest
        · exact List.mem_cons_of_mem t0
            ((paretoSweep_sublist [d0, d1] rest t0).subset h2)
      refine ⟨hperm.subset htS, ?_⟩
      intro u huT
      have hsound := paretoSweep_sound [d0, d1]
        (paretoCandidates trials consider_constraint) (sortKey2 [d0, d1]) hdom
        rest [] t0 hpair
        (fun v hv => Or.inr (List.mem_cons.mp (hperm.symm.subset hv)))
        (hperm.subset (List.mem_cons_self t0 rest))
        (fun x hx => hperm.subset (List.mem_cons_of_mem t0 hx))
        (fun v hv => absurd hv (List.not_mem_nil v))
        (fun v hv => sorted_head_nondominated (sortKey2 [d0, d1]) t0 rest hpair v
          (hperm.symm.subset hv))
        t htmem u huT
      rw [hdom u t huT (hperm.subset htS)]
      exact hsound
    · rintro ⟨htT, hnondom⟩
      have htS : t ∈ t0 :: rest := hperm.symm.subset htT
      rw [List.mem_mergeSort]
      rcases List.mem_cons.mp htS with h1 | ht2
      · rw [h1]
        exact List.mem_cons_self t0 _
      · by_contra hout
        have hout2 : t ∉ paretoSweep [d0, d1] t0 rest := fun hc =>
          hout (List.mem_cons_of_mem t0 hc)
        rcases paretoSweep_rejected [d0, d1] rest t0 t ht2 hout2 with ⟨u, hu, hdu⟩
        have huT : u ∈ paretoCandidates trials consider_constraint := by
          rcases hu with hu | hu
          · exact hperm.subset (by rw [hu]; exact List.mem_cons_self t0 rest)
          · exact hperm.subset (List.mem_cons_of_mem t0 hu)
        rw [hnondom u huT] at hdu
        cases hdu

/-- C1: for two objectives, the fast 2d path and the general nd path keep
exactly the same set of trials (hence the same set of trial numbers). -/
theorem pareto_front_2d_nd_same_set (trials : List FrozenTrial)
    (directions : List StudyDirection) (consider_constraint : Bool)
    (h2 : directions.length = 2) (hwf : WfTrials trials directions) :
    (∀ t, t ∈ _get_pareto_front_trials_2d trials directions consider_constraint ↔
      t ∈ _get_pareto_front_trials_nd trials directions consider_constraint) ∧
    (∀ n, n ∈ (_get_pareto_front_trials_2d trials directions
        consider_constraint).map FrozenTrial.number ↔
      n ∈ (_get_pareto_front_trials_nd trials directions
        consider_constraint).map FrozenTrial.number) := by
  obtain ⟨d0, d1, rfl⟩ := list_length_two h2
  have hiff : ∀ t,
      t ∈ _get_pareto_front_trials_2d trials [d0, d1] consider_constraint ↔
      t ∈ _get_pareto_front_trials_nd trials [d0, d1] consider_constraint :=
    fun t => (twod_mem trials d0 d1 consider_constraint hwf t).trans
      (nd_mem trials [d0, d1] consider_constraint t).symm
  refine ⟨hiff, ?_⟩
  intro n
  simp only [List.mem_map]
  constructor
  · rintro ⟨t, ht, rfl⟩
    exact ⟨t, (hiff t).mp ht, rfl⟩
  · rintro ⟨t, ht, rfl⟩
    exact ⟨t, (hiff t).mpr ht, rfl⟩

theorem pareto_front_2d_nd_same_set_witness :
    (∀ t, t ∈ _get_pareto_front_trials_2d
        [⟨3, TrialState.running, some [Val.fin 9, Val.fin 9], none⟩,
         ⟨1, TrialState.complete, some [Val.fin 2, Val.fin 1], none⟩,
         ⟨0, TrialState.complete, some [Val.fin 1, Val.fin 2], none⟩,
         ⟨2, TrialState.complete, some [Val.fin 3, Val.fin 3], none⟩]
        [StudyDirection.minimize, StudyDirection.maximize] true ↔
      t ∈ _get_pareto_front_trials_nd
        [⟨3, TrialState.running, some [Val.fin 9, Val.fin 9], none⟩,
         ⟨1, TrialState.complete, some [Val.fin 2, Val.fin 1], none⟩,
         ⟨0, TrialState.complete, some [Val.fin 1, Val.fin 2], none⟩,
         ⟨2, TrialState.complete, some [Val.fin 3, Val.fin 3], none⟩]
        [StudyDirection.minimize, StudyDirection.maximize] true) ∧
    (∀ n, n ∈ (_get_pareto_front_trials_2d
        [⟨3, TrialState.running, some [Val.fin 9, Val.fin 9], none⟩,
         ⟨1, TrialState.complete, some [Val.fin 2, Val.fin 1], none⟩,
         ⟨0, TrialState.complete, some [Val.fin 1, Val.fin 2], none⟩,
         ⟨2, TrialState.complete, some [Val.fin 3, Val.fin 3], none⟩]
        [StudyDirection.minimize, StudyDirection.maximize] true).map
          FrozenTrial.number ↔
      n ∈ (_get_pareto_front_trials_nd
        [⟨3, TrialState.running, some [Val.fin 9, Val.fin 9], none⟩,
         ⟨1, TrialState.complete, some [Val.fin 2, Val.fin 1], none⟩,
         ⟨0, TrialState.complete, some [Val.fin 1, Val.fin 2], none⟩,
         ⟨2, TrialState.complete, some [Val.fin 3, Val.fin 3], none⟩]
        [StudyDirection.minimize, StudyDirection.maximize] true).map
          FrozenTrial.number) :=
  pareto_front_2d_nd_same_set _ _ _ (by decide) (by unfold WfTrials; decide)

/-- Everything the 2d extractor returns comes from the candidate list. -/
theorem twod_subset (trials : List FrozenTrial) (directions : List StudyDirection)
    (consider_constraint : Bool) :
    ∀ t ∈ _get_pareto_front_trials_2d trials directions consider_constraint,
      t ∈ paretoCandidates trials consider_constraint := by
  intro t ht
  rw [twod_eq_candidates] at ht
  cases hS : (paretoCandidates trials consider_constraint).mergeSort
      (fun a b => tupleLe (sortKey2 directions a) (sortKey2 directions b)) with
  | nil =>
    rw [hS] at ht
    simp at ht
  | cons t0 rest =>
    rw [hS] at ht
    have hperm : (t0 :: rest).Perm (paretoCandidates trials consider_constraint) := by
      have hp := List.mergeSort_perm (paretoCandidates trials consider_constraint)
        (fun a b => tupleLe (sortKey2 directions a) (sortKey2 directions b))
      rw [hS] at hp
      exact hp
    have ht2 : t ∈ (t0 :: paretoSweep directions t0 rest).mergeSort
        (fun a b => decide (a.number ≤ b.number)) := ht
    rw [List.mem_mergeSort] at ht2
    rcases List.mem_cons.mp ht2 with h1 | h1
    · exact hperm.subset (by rw [h1]; exact List.mem_cons_self t0 rest)
    · exact hperm.subset (List.mem_cons_of_mem t0
        ((paretoSweep_sublist directions rest t0).subset h1))

/-- C5: every trial in the extractor output is COMPLETE and, when constraints
are considered, feasible (constraint vector absent or all components at most
zero); an infeasible trial never appears in the output. -/
theorem pareto_front_complete_feasible (trials : List FrozenTrial)
    (directions : List StudyDirection) (consider_constraint : Bool) :
    ∀ t ∈ _get_pareto_front_trials_by_trials trials directions consider_constraint,
      t.state = TrialState.complete ∧
      (consider_constraint = true → feasibleB t = true) := by
  intro t ht
  unfold _get_pareto_front_trials_by_trials at ht
  have htc : t ∈ paretoCandidates trials consider_constraint := by
    by_cases h2 : directions.length = 2
    · rw [if_pos h2] at ht
      exact twod_subset trials directions consider_constraint t ht
    · rw [if_neg h2] at ht
      exact ((nd_mem trials directions consider_constraint t).mp ht).1
  obtain ⟨_, hs, hf⟩ := mem_paretoCandidates.mp htc
  exact ⟨hs, hf⟩

theorem pareto_front_complete_feasible_witness :
    (⟨0, TrialState.complete, some [Val.fin 1], some [Val.fin (-1)]⟩ :
      FrozenTrial).state = TrialState.complete ∧
    (true = true →
      feasibleB ⟨0, TrialState.complete, some [Val.fin 1], some [Val.fin (-1)]⟩ =
        true) :=
  pareto_front_complete_feasible
    [⟨1, TrialState.complete, some [Val.fin 2], some [Val.fin 3]⟩,
     ⟨0, TrialState.complete, some [Val.fin 1], some [Val.fin (-1)]⟩]
    [StudyDirection.minimize] true
    ⟨0, TrialState.complete, some [Val.fin 1], some [Val.fin (-1)]⟩ (by decide)

/-- C4 counterexample: with more than two objectives handled by the nd path
(here one objective), the extractor preserves input order, so an input listed
in descending trial-number order yields an unsorted output. -/
theorem pareto_front_by_trials_unsorted :
    ¬ List.Pairwise (fun a b => a.number ≤ b.number)
      (_get_pareto_front_trials_by_trials
        [⟨1, TrialState.complete, some [Val.fin 0], none⟩,
         ⟨0, TrialState.complete, some [Val.fin 0], none⟩]
        [StudyDirection.minimize] false) := by decide

/-- The 2d extractor output is strictly ascending in trial number as soon as
the input carries pairwise distinct trial numbers. -/
theorem twod_output_pairwise_lt (trials : List FrozenTrial)
    (directions : List StudyDirection) (consider_constraint : Bool)
    (hne : List.Pairwise (fun a b => a.number ≠ b.number) trials) :
    List.Pairwise (fun a b => a.number < b.number)
      (_get_pareto_front_trials_2d trials directions consider_constraint) := by
  have hsymm : ∀ {x y : FrozenTrial}, x.number ≠ y.number → y.number ≠ x.number :=
    fun h => h.symm
  have hnecand : List.Pairwise (fun a b => a.number ≠ b.number)
      (paretoCandidates trials consider_constraint) :=
    List.Pairwise.sublist (paretoCandidates_sublist trials consider_constraint) hne
  rw [twod_eq_candidates]
  cases hS : (paretoCandidates trials consider_constraint).mergeSort
      (fun a b => tupleLe (sortKey2 directions a) (sortKey2 directions b)) with
  | nil => exact List.Pairwise.nil
  | cons t0 rest =>
    show List.Pairwise (fun a b => a.number < b.number)
      ((t0 :: paretoSweep directions t0 rest).mergeSort
        (fun a b => decide (a.number ≤ b.number)))
    have hperm : (t0 :: rest).Perm (paretoCandidates trials consider_constraint) := by
      have hp := List.mergeSort_perm (paretoCandidates trials consider_constraint)
        (fun a b => tupleLe (sortKey2 directions a) (sortKey2 directions b))
      rw [hS] at hp
      exact hp
    have hneS : List.Pairwise (fun a b => a.number ≠ b.number) (t0 :: rest) :=
      (hperm.pairwise_iff hsymm).mpr hnecand
    have hnefront : List.Pairwise (fun a b => a.number ≠ b.number)
        (t0 :: paretoSweep directions t0 rest) :=
      List.Pairwise.sublist
        (List.Sublist.cons₂ t0 (paretoSweep_sublist directions rest t0)) hneS
    have hpermout : ((t0 :: paretoSweep directions t0 rest).mergeSort
        (fun a b => decide (a.number ≤ b.number))).Perm
          (t0 :: paretoSweep directions t0 rest) :=
      List.mergeSort_perm _ _
    have hneout : List.Pairwise (fun a b => a.number ≠ b.number)
        ((t0 :: paretoSweep directions t0 rest).mergeSort
          (fun a b => decide (a.number ≤ b.number))) :=
      (hpermout.pairwise_iff hsymm).mpr hnefront
    have hleout : List.Pairwise
        (fun a b : FrozenTrial => decide (a.number ≤ b.number) = true)
        ((t0 :: paretoSweep directions t0 rest).mergeSort
          (fun a b => decide (a.number ≤ b.number))) := by
      refine List.sorted_mergeSort ?_ ?_ _
      · intro a b c h1 h2
        simp only [decide_eq_true_eq] at h1 h2 ⊢
        omega
      · intro a b
        simp only [Bool.or_eq_true, decide_eq_true_eq]
        omega
    refine (hleout.and hneout).imp ?_
    intro a b hab
    have h1 := hab.1
    simp only [decide_eq_true_eq] at h1
    omega

/-- C4 (amended): when the input trial sequence is strictly ascending by
trial number (as a study trial list is), the extractor output is strictly
ascending by trial number — sorted, with no duplicate trial numbers.  The 2d
path re-sorts its result; the nd path preserves the input order. -/
theorem pareto_front_sorted_nodup (trials : List FrozenTrial)
    (directions : List StudyDirection) (consider_constraint : Bool)
    (hsorted : List.Pairwise (fun a b => a.number < b.number) trials) :
    List.Pairwise (fun a b => a.number < b.number)
      (_get_pareto_front_trials_by_trials trials directions consider_constraint) := by
  unfold _get_pareto_front_trials_by_trials
  by_cases h2 : directions.length = 2
  · rw [if_pos h2]
    exact twod_output_pairwise_lt trials directions consider_constraint
      (hsorted.imp fun h => Nat.ne_of_lt h)
  · rw [if_neg h2]
    rw [nd_eq_candidates]
    exact List.Pairwise.sublist (List.filter_sublist _)
      (List.Pairwise.sublist (paretoCandidates_sublist trials consider_constraint)
        hsorted)

theorem pareto_front_sorted_nodup_witness :
    List.Pairwise (fun a b => a.number < b.number)
      (_get_pareto_front_trials_by_trials
        [⟨0, TrialState.complete, some [Val.fin 1, Val.fin 2, Val.fin 0], none⟩,
         ⟨1, TrialState.complete, some [Val.fin 2, Val.fin 1, Val.fin 0], none⟩,
         ⟨2, TrialState.running, none, none⟩]
        [StudyDirection.minimize, StudyDirection.minimize,
         StudyDirection.maximize] false) :=
  pareto_front_sorted_nodup _ _ _ (by decide)

/-- Filtering for completeness and feasibility is the identity on a list all
of whose members are COMPLETE and (when required) feasible. -/
theorem paretoCandidates_eq_self (l : List FrozenTrial) (consider_constraint : Bool)
    (h : ∀ t ∈ l, t.state = TrialState.complete ∧
      (consider_constraint = true → feasibleB t = true)) :
    paretoCandidates l consider_constraint = l := by
  unfold paretoCandidates _get_feasible_trials
  have h1 : l.filter (fun t => decide (t.state = TrialState.complete)) = l :=
    List.filter_eq_self.mpr fun t ht => by simp [(h t ht).1]
  cases consider_constraint
  · simpa using h1
  · rw [if_pos rfl, h1]
    exact List.filter_eq_self.mpr fun t ht => (h t ht).2 rfl

/-- C7: the extractor is idempotent — applying it to its own output (same
directions, same flag) returns that output unchanged.  The hypotheses are the
spec invariants that every COMPLETE trial carries an objective vector of the
right length and that trial sequence numbers are unique. -/
theorem pareto_front_idempotent (trials : List FrozenTrial)
    (directions : List StudyDirection) (consider_constraint : Bool)
    (hwf : WfTrials trials directions)
    (hne : List.Pairwise (fun a b => a.number ≠ b.number) trials) :
    _get_pareto_front_trials_by_trials
      (_get_pareto_front_trials_by_trials trials directions consider_constraint)
      directions consider_constraint =
    _get_pareto_front_trials_by_trials trials directions consider_constraint := by
  unfold _get_pareto_front_trials_by_trials
  by_cases h2 : directions.length = 2
  · rw [if_pos h2, if_pos h2]
    obtain ⟨d0, d1, rfl⟩ := list_length_two h2
    have hOchar : ∀ t ∈ _get_pareto_front_trials_2d trials [d0, d1] consider_constraint,
        t ∈ paretoCandidates trials consider_constraint ∧
        ∀ u ∈ paretoCandidates trials consider_constraint,
          dominatesB u t [d0, d1] = false :=
      fun t ht => (twod_mem trials d0 d1 consider_constraint hwf t).mp ht
    have hOcf : ∀ t ∈ _get_pareto_front_trials_2d trials [d0, d1] consider_constraint,
        t.state = TrialState.complete ∧
        (consider_constraint = true → feasibleB t = true) := by
      intro t ht
      obtain ⟨_, hs, hf⟩ := mem_paretoCandidates.mp (hOchar t ht).1
      exact ⟨hs, hf⟩
    have hmutual : ∀ a b,
        a ∈ _get_pareto_front_trials_2d trials [d0, d1] consider_constraint →
        b ∈ _get_pareto_front_trials_2d trials [d0, d1] consider_constraint →
        dominatesB a b [d0, d1] = false :=
      fun a b ha hb => (hOchar b hb).2 a (hOchar a ha).1
    have hOlt : List.Pairwise (fun a b => a.number < b.number)
        (_get_pareto_front_trials_2d trials [d0, d1] consider_constraint) :=
      twod_output_pairwise_lt trials [d0, d1] consider_constraint hne
    rw [twod_eq_candidates
      (_get_pareto_front_trials_2d trials [d0, d1] consider_constraint) [d0, d1]
      consider_constraint,
      paretoCandidates_eq_self _ _ hOcf]
    cases hS : (_get_pareto_front_trials_2d trials [d0, d1]
        consider_constraint).mergeSort
        (fun a b => tupleLe (sortKey2 [d0, d1] a) (sortKey2 [d0, d1] b)) with
    | nil =>
      have hnil : _get_pareto_front_trials_2d trials [d0, d1] consider_constraint = [] := by
        have hp := List.mergeSort_perm
          (_get_pareto_front_trials_2d trials [d0, d1] consider_constraint)
          (fun a b => tupleLe (sortKey2 [d0, d1] a) (sortKey2 [d0, d1] b))
        rw [hS] at hp
        exact hp.symm.eq_nil
      exact hnil.symm
    | cons s0 srest =>
      show (s0 :: paretoSweep [d0, d1] s0 srest).mergeSort
          (fun a b => decide (a.number ≤ b.number)) =
        _get_pareto_front_trials_2d trials [d0, d1] consider_constraint
      have hpermS : (s0 :: srest).Perm
          (_get_pareto_front_trials_2d trials [d0, d1] consider_constraint) := by
        have hp := List.mergeSort_perm
          (_get_pareto_front_trials_2d trials [d0, d1] consider_constraint)
          (fun a b => tupleLe (sortKey2 [d0, d1] a) (sortKey2 [d0, d1] b))
        rw [hS] at hp
        exact hp
      have hsweep : paretoSweep [d0, d1] s0 srest = srest := by
        refine paretoSweep_keeps_all [d0, d1] srest s0 ?_
        intro a b ha hb
        refine hmutual a b ?_ (hpermS.subset (List.mem_cons_of_mem s0 hb))
        rcases ha with ha | ha
        · exact hpermS.subset (by rw [ha]; exact List.mem_cons_self s0 srest)
        · exact hpermS.subset (List.mem_cons_of_mem s0 ha)
      rw [hsweep]
      have hperm2 : ((s0 :: srest).mergeSort
          (fun a b => decide (a.number ≤ b.number))).Perm
          (_get_pareto_front_trials_2d trials [d0, d1] consider_constraint) :=
        (List.mergeSort_perm _ _).trans hpermS
      have hle2 : List.Pairwise
          (fun a b : FrozenTrial => decide (a.number ≤ b.number) = true)
          ((s0 :: srest).mergeSort (fun a b => decide (a.number ≤ b.number))) := by
        refine List.sorted_mergeSort ?_ ?_ _
        · intro a b c ha hb
          simp only [decide_eq_true_eq] at ha hb ⊢
          omega
        · intro a b
          simp only [Bool.or_eq_true, decide_eq_true_eq]
          omega
      have hne2 : List.Pairwise (fun a b => a.number ≠ b.number)
          ((s0 :: srest).mergeSort (fun a b => decide (a.number ≤ b.number))) :=
        (hperm2.pairwise_iff (fun h => h.symm)).mpr (hOlt.imp fun h => Nat.ne_of_lt h)
      have hlt2 : List.Pairwise (fun a b => a.number < b.number)
          ((s0 :: srest).mergeSort (fun a b => decide (a.number ≤ b.number))) := by
        refine (hle2.and hne2).imp ?_
        intro a b hab
        have h1 := hab.1
        simp only [decide_eq_true_eq] at h1
        omega
      haveI : IsAntisymm FrozenTrial (fun a b => a.number < b.number) :=
        ⟨fun _ _ h1 h2 => absurd h2 (Nat.lt_asymm h1)⟩
      exact List.eq_of_perm_of_sorted hperm2 hlt2 hOlt
  · rw [if_neg h2, if_neg h2]
    have hOchar : ∀ t ∈ _get_pareto_front_trials_nd trials directions consider_constraint,
        t ∈ paretoCandidates trials consider_constraint ∧
        ∀ u ∈ paretoCandidates trials consider_constraint,
          dominatesB u t directions = false :=
      fun t ht => (nd_mem trials directions consider_constraint t).mp ht
    have hOcf : ∀ t ∈ _get_pareto_front_trials_nd trials directions consider_constraint,
        t.state = TrialState.complete ∧
        (consider_constraint = true → feasibleB t = true) := by
      intro t ht
      obtain ⟨_, hs, hf⟩ := mem_paretoCandidates.mp (hOchar t ht).1
      exact ⟨hs, hf⟩
    rw [nd_eq_candidates
      (_get_pareto_front_trials_nd trials directions consider_constraint)
      directions consider_constraint,
      paretoCandidates_eq_self _ _ hOcf]
    refine List.filter_eq_self.mpr ?_
    intro t ht
    simp only [Bool.not_eq_true', List.any_eq_false, Bool.not_eq_true]
    intro u hu
    exact (hOchar t ht).2 u (hOchar u hu).1

theorem pareto_front_idempotent_witness :
    _get_pareto_front_trials_by_trials
      (_get_pareto_front_trials_by_trials
        [⟨0, TrialState.complete, some [Val.fin 1, Val.fin 2], none⟩,
         ⟨1, TrialState.complete, some [Val.fin 2, Val.fin 1], none⟩,
         ⟨2, TrialState.complete, some [Val.fin 3, Val.fin 3], none⟩]
        [StudyDirection.minimize, StudyDirection.minimize] false)
      [StudyDirection.minimize, StudyDirection.minimize] false =
    _get_pareto_front_trials_by_trials
      [⟨0, TrialState.complete, some [Val.fin 1, Val.fin 2], none⟩,
       ⟨1, TrialState.complete, some [Val.fin 2, Val.fin 1], none⟩,
       ⟨2, TrialState.complete, some [Val.fin 3, Val.fin 3], none⟩]
      [StudyDirection.minimize, StudyDirection.minimize] false :=
  pareto_front_idempotent _ _ _ (by unfold WfTrials; decide) (by decide)
